import Mathlib

/-!
Verification of the vote-aggregation and session-navigation core of the
adventure-voter server.

The definitions below are a shallow embedding of the Go sources:

* `backend/server/votes.go` — the `VoteManager` (tally store, voting session
  lifecycle) and `determineWinner`;
* `backend/main.go` — the navigation handlers `handleAdvance` / `handleGoBack`
  layered on the story engine of `backend/parser/story.go`.

Go `map[string]V` values are embedded as association lists with
insert-or-update semantics (`setA`): a `m[k] = v` assignment replaces the
value of an existing key and otherwise adds the key.  A lookup of a missing
key yields the zero value, mirrored by `lookupD` for `map[string]int`.
The enumeration order of a Go map is unspecified; wherever the source
iterates a map (`determineWinner`) the embedding therefore takes the
iteration sequence as an explicit argument and results are related across
permutations of that sequence.
-/

namespace AdventureVoter

/-- One Go `map[string]V` entry list.  Keys are unique because entries are
only ever created through `setA`. -/
def lookA {α : Type} : List (String × α) → String → Option α
  | [], _ => none
  | p :: rest, k => if p.1 = k then some p.2 else lookA rest k

/-- Go map assignment `m[k] = v`: replace the entry of `k` if present,
otherwise add it. -/
def setA {α : Type} : List (String × α) → String → α → List (String × α)
  | [], k, v => [(k, v)]
  | p :: rest, k, v => if p.1 = k then (k, v) :: rest else p :: setA rest k v

theorem lookA_setA_self {α : Type} (l : List (String × α)) (k : String) (v : α) :
    lookA (setA l k v) k = some v := by
  induction l with
  | nil => simp [setA, lookA]
  | cons p rest ih =>
    by_cases h : p.1 = k
    · simp [setA, lookA, h]
    · simp [setA, lookA, h, ih]

theorem lookA_setA_ne {α : Type} (l : List (String × α)) (k k' : String) (v : α)
    (h : k' ≠ k) : lookA (setA l k v) k' = lookA l k' := by
  have hne : k ≠ k' := fun hh => h hh.symm
  induction l with
  | nil => simp [setA, lookA, hne]
  | cons p rest ih =>
    by_cases hp : p.1 = k
    · simp [setA, lookA, hp, hne]
    · by_cases hp' : p.1 = k'
      · simp [setA, lookA, hp, hp', h]
      · simp [setA, lookA, hp, hp', ih]

theorem setA_of_lookA_none {α : Type} (l : List (String × α)) (k : String) (v : α)
    (h : lookA l k = none) : setA l k v = l ++ [(k, v)] := by
  induction l with
  | nil => simp [setA]
  | cons p rest ih =>
    by_cases hp : p.1 = k
    · simp [lookA, hp] at h
    · simp [lookA, hp] at h
      simp [setA, hp, ih h]

theorem setA_of_lookA_self {α : Type} (l : List (String × α)) (k : String) (v : α)
    (h : lookA l k = some v) : setA l k v = l := by
  induction l with
  | nil => simp [lookA] at h
  | cons p rest ih =>
    by_cases hp : p.1 = k
    · simp [lookA, hp] at h
      cases p
      simp_all [setA]
    · simp [lookA, hp] at h
      simp [setA, hp, ih h]

theorem length_setA_of_lookA_some {α : Type} (l : List (String × α)) (k : String)
    (v w : α) (h : lookA l k = some w) : (setA l k v).length = l.length := by
  induction l with
  | nil => simp [lookA] at h
  | cons p rest ih =>
    by_cases hp : p.1 = k
    · simp [setA, hp]
    · simp [lookA, hp] at h
      simp [setA, hp, ih h]

/-- A Go `map[string]int` of vote counts. -/
abbrev Cnt := List (String × Int)

/-- Go map lookup on a `map[string]int`: the zero value `0` for a missing
key. -/
def lookupD (m : Cnt) (k : String) : Int := (lookA m k).getD 0

/-- Go `m[k]++` (read the zero value when `k` is absent, then assign). -/
def incK (m : Cnt) (k : String) : Cnt := setA m k (lookupD m k + 1)

/-- Go `m[k]--` (read the zero value when `k` is absent, then assign). -/
def decK (m : Cnt) (k : String) : Cnt := setA m k (lookupD m k - 1)

theorem lookupD_setA (m : Cnt) (k k' : String) (v : Int) :
    lookupD (setA m k v) k' = if k = k' then v else lookupD m k' := by
  by_cases h : k = k'
  · subst h; simp [lookupD, lookA_setA_self]
  · simp [lookupD, h, lookA_setA_ne m k k' v (fun hh => h hh.symm)]

theorem lookupD_incK (m : Cnt) (k k' : String) :
    lookupD (incK m k) k' = lookupD m k' + (if k = k' then 1 else 0) := by
  by_cases h : k = k'
  · subst h; simp [incK, lookupD_setA]
  · simp [incK, lookupD_setA, h]

theorem lookupD_decK (m : Cnt) (k k' : String) :
    lookupD (decK m k) k' = lookupD m k' - (if k = k' then 1 else 0) := by
  by_cases h : k = k'
  · subst h; simp [decK, lookupD_setA]
  · simp [decK, lookupD_setA, h]

/-- Number of voters whose currently recorded choice is `c`
(`len` of the preimage of `c` under the voter map). -/
def cntV (l : List (String × String)) (c : String) : Nat :=
  (l.filter (fun p => p.2 = c)).length

theorem cntV_nil (c : String) : cntV [] c = 0 := rfl

theorem cntV_cons (p : String × String) (l : List (String × String)) (k : String) :
    cntV (p :: l) k = cntV l k + (if p.2 = k then 1 else 0) := by
  by_cases h : p.2 = k <;> simp [cntV, List.filter_cons, h]

/-- Re-recording the existing voter `v` (previous choice `prev`, new choice
`c`) moves exactly one unit of weight from `prev` to `c`. -/
theorem cntV_setA_mem (l : List (String × String)) (v c prev : String)
    (h : lookA l v = some prev) (k : String) :
    cntV (setA l v c) k + (if prev = k then 1 else 0)
      = cntV l k + (if c = k then 1 else 0) := by
  induction l with
  | nil => simp [lookA] at h
  | cons p rest ih =>
    by_cases hp : p.1 = v
    · simp [lookA, hp] at h
      have hs : setA (p :: rest) v c = (v, c) :: rest := by simp [setA, hp]
      rw [hs, cntV_cons, cntV_cons, h]
      by_cases h1 : prev = k <;> by_cases h2 : c = k <;> simp [h1, h2]
    · simp [lookA, hp] at h
      have ih' := ih h
      have hs : setA (p :: rest) v c = p :: setA rest v c := by simp [setA, hp]
      rw [hs, cntV_cons, cntV_cons]
      omega

/-- Recording a fresh voter adds one unit of weight to its choice. -/
theorem cntV_setA_new (l : List (String × String)) (v c : String)
    (h : lookA l v = none) (k : String) :
    cntV (setA l v c) k = cntV l k + (if c = k then 1 else 0) := by
  rw [setA_of_lookA_none l v c h]
  by_cases hck : c = k <;> simp [cntV, List.filter_append, hck]

/-! ## The VoteManager (`backend/server/votes.go`)

The state of a `VoteManager` as far as vote accounting is concerned:
`currentQuestion`, `votes` (`questionID -> choiceID -> count`, with `none`
embedding a `nil` inner map), `voters` (`voterID -> choiceID`) and the
`votingActive` flag.  The mutex, the websocket client registry, the broadcast
channel, the stored callback and the `time.Timer` handle carry no vote data;
the timer/`EndVoting` interleaving is modelled separately below (`CState`).
Every method of the source is embedded as a function on this state. -/

@[ext]
structure VM where
  currentQuestion : String
  votes : String → Option Cnt
  voters : List (String × String)
  votingActive : Bool

/-- `NewVoteManager` (votes.go:37): empty outer votes map (`votes[q]` is `nil`
for every `q`), empty voter map, voting inactive. -/
def newVM : VM :=
  { currentQuestion := ""
    votes := fun _ => none
    voters := []
    votingActive := false }

/-- Go `vm.votes[q] = m` on the outer map. -/
def updQ (f : String → Option Cnt) (q : String) (m : Cnt) : String → Option Cnt :=
  fun q' => if q' = q then some m else f q'

/-- The loop of votes.go:109-111: `for _, choice := range choiceIDs
{ vm.votes[questionID][choice] = 0 }` starting from a fresh map. -/
def initCounts (choiceIDs : List String) : Cnt :=
  choiceIDs.foldl (fun m c => setA m c 0) []

/-- `StartVotingWithChoices` (votes.go:97-140), state part: set the current
question, clear the voter map, set `votingActive`, and reset the counts for
`questionID` to zero for each registered choice.  The stopped/rescheduled
timer and the `voting_started` broadcast carry no tally state (the timer race
is modelled by `CState` below); the `choiceObjects`, `question`, `duration`
and `onComplete` arguments only feed the broadcast payload and the timer. -/
def startVotingWithChoices (questionID : String) (choiceIDs : List String) (s : VM) : VM :=
  { currentQuestion := questionID
    voters := []
    votingActive := true
    votes := updQ s.votes questionID (initCounts choiceIDs) }

/-- `SubmitVote` (votes.go:143-167).  Mirrors the source line by line:
return `nil` when voting is inactive; if the voter has a previous choice and
the current question's map is not `nil`, decrement the previous choice;
record the voter's new choice; create the current question's map when `nil`;
increment the chosen key.  The Go method returns the constant `nil` error on
every path, embedded as the `Option String` component. -/
def submitVote (voterID choiceID : String) (s : VM) : VM × Option String :=
  if s.votingActive then
    let s1 :=
      match lookA s.voters voterID, s.votes s.currentQuestion with
      | some prev, some m =>
        { s with votes := updQ s.votes s.currentQuestion (decK m prev) }
      | _, _ => s
    let s2 := { s1 with voters := setA s1.voters voterID choiceID }
    let m0 := (s2.votes s2.currentQuestion).getD []
    ({ s2 with votes := updQ s2.votes s2.currentQuestion (incK m0 choiceID) }, none)
  else (s, none)

/-- `EndVoting` (votes.go:170-199), state part: a no-op when inactive,
otherwise clears the active flag.  Counts, voters and the current question
are untouched; the winner is computed by `determineWinner` from an
enumeration of `votes[currentQuestion]` and only broadcast, never stored. -/
def endVoting (s : VM) : VM :=
  if s.votingActive then { s with votingActive := false } else s

/-- `determineWinner` (votes.go:202-214): scan the `results` map keeping the
first entry that strictly exceeds the running maximum, starting from
`maxVotes = 0, winner = ""`.  The scan is a Go `for ... range` over a map,
whose visiting order is unspecified; the embedding therefore takes the
visiting sequence explicitly, and any permutation of the stored entries is a
possible run of the source. -/
def determineWinner (results : Cnt) : String :=
  (results.foldl (fun acc p => if p.2 > acc.2 then p else acc) ("", 0)).1

/-- `ResetVoting` (votes.go:322-344), state part: clear everything. -/
def resetVoting (_s : VM) : VM :=
  { currentQuestion := ""
    voters := []
    votingActive := false
    votes := fun _ => none }

/-- `ClearQuestionVotes` (votes.go:347-372), state part: deactivate, clear
the current question and the voter map, and delete the named question's
counts (only when the name is nonempty). -/
def clearQuestionVotes (questionID : String) (s : VM) : VM :=
  { currentQuestion := ""
    voters := []
    votingActive := false
    votes := fun q' => if q' = questionID ∧ questionID ≠ "" then none else s.votes q' }

/-- `GetResults` (votes.go:261-272): build a fresh map and copy the stored
counts into it when the question is present; a question with no stored map
yields the fresh empty map, never an error. -/
def getResults (s : VM) (questionID : String) : Cnt :=
  match s.votes questionID with
  | some m => m
  | none => []

/-- The count the manager stores for choice `c` of question `q` (the Go
lookup `vm.votes[q][c]`, reading `0` through a `nil` map). -/
def getCount (s : VM) (q c : String) : Int :=
  lookupD ((s.votes q).getD []) c

/-- The mutating entry points of the `VoteManager` API. -/
inductive VOp where
  | start (questionID : String) (choiceIDs : List String)
  | submit (voterID choiceID : String)
  | endv
  | reset
  | clearq (questionID : String)

def applyOp (s : VM) : VOp → VM
  | .start q ids => startVotingWithChoices q ids s
  | .submit v c => (submitVote v c s).1
  | .endv => endVoting s
  | .reset => resetVoting s
  | .clearq q => clearQuestionVotes q s

/-- A reachable `VoteManager` state: `NewVoteManager` followed by any
sequence of API calls. -/
def runOps (ops : List VOp) : VM := ops.foldl applyOp newVM

/-- The questions named by `start` operations in a call sequence. -/
def startQs (ops : List VOp) : List String :=
  ops.filterMap (fun op => match op with | .start q _ => some q | _ => none)

theorem updQ_self (f : String → Option Cnt) (q : String) (m : Cnt) :
    updQ f q m q = some m := by simp [updQ]

theorem updQ_ne (f : String → Option Cnt) (q : String) (m : Cnt) (q' : String)
    (h : q' ≠ q) : updQ f q m q' = f q' := by simp [updQ, h]

theorem submitVote_inactive (v c : String) (s : VM) (hA : s.votingActive = false) :
    submitVote v c s = (s, none) := by
  simp [submitVote, hA]

/-- State transformation of `SubmitVote` for a re-voting voter (previous
choice `prev`) while voting is active and the current question's map is
present: decrement `prev`, record the new choice, increment it. -/
theorem submitVote_active_prev (v c prev : String) (s : VM) (m : Cnt)
    (hA : s.votingActive = true) (hv : lookA s.voters v = some prev)
    (hm : s.votes s.currentQuestion = some m) :
    (submitVote v c s).1 =
      { s with voters := setA s.voters v c
               votes := updQ s.votes s.currentQuestion (incK (decK m prev) c) } := by
  simp only [submitVote, hA, if_true, hv, hm]
  ext1
  · rfl
  · funext q'
    by_cases hq : q' = s.currentQuestion <;> simp [updQ, hq]
  · rfl
  · rfl

/-- State transformation of `SubmitVote` for a fresh voter while voting is
active and the current question's map is present: record the choice and
increment it. -/
theorem submitVote_active_new (v c : String) (s : VM) (m : Cnt)
    (hA : s.votingActive = true) (hv : lookA s.voters v = none)
    (hm : s.votes s.currentQuestion = some m) :
    (submitVote v c s).1 =
      { s with voters := setA s.voters v c
               votes := updQ s.votes s.currentQuestion (incK m c) } := by
  simp only [submitVote, hA, if_true, hv, hm]
  ext1
  · rfl
  · funext q'
    by_cases hq : q' = s.currentQuestion <;> simp [updQ, hq, hm]
  · rfl
  · rfl

/-- The invariant maintained by every `VoteManager` entry point: every stored
count is nonnegative, and while voting is active the current question's map
is present and each choice's count equals the number of voters whose recorded
choice it is. -/
def Inv (s : VM) : Prop :=
  (∀ q m, s.votes q = some m → ∀ c, 0 ≤ lookupD m c) ∧
  (s.votingActive = true → ∃ m, s.votes s.currentQuestion = some m ∧
      ∀ c, lookupD m c = (cntV s.voters c : Int))

theorem inv_newVM : Inv newVM := by
  constructor
  · intro q m h c
    simp [newVM] at h
  · intro h
    simp [newVM] at h

theorem initCounts_aux (ids : List String) (m : Cnt) (h : ∀ k, lookupD m k = 0)
    (k : String) : lookupD (ids.foldl (fun acc c => setA acc c 0) m) k = 0 := by
  induction ids generalizing m with
  | nil => simpa using h k
  | cons c rest ih =>
    simp only [List.foldl_cons]
    apply ih
    intro k'
    rw [lookupD_setA]
    by_cases hc : c = k' <;> simp [hc, h k']

theorem initCounts_lookupD (ids : List String) (k : String) :
    lookupD (initCounts ids) k = 0 :=
  initCounts_aux ids [] (fun _ => rfl) k

theorem inv_start (q : String) (ids : List String) (s : VM) (h : Inv s) :
    Inv (startVotingWithChoices q ids s) := by
  obtain ⟨hNN, _⟩ := h
  constructor
  · intro q' m' hm' c
    by_cases hq : q' = q
    · subst hq
      rw [show (startVotingWithChoices q' ids s).votes q' = some (initCounts ids) from
        updQ_self s.votes q' (initCounts ids)] at hm'
      cases hm'
      simp [initCounts_lookupD]
    · rw [show (startVotingWithChoices q ids s).votes q' = s.votes q' from
        updQ_ne s.votes q (initCounts ids) q' hq] at hm'
      exact hNN q' m' hm' c
  · intro _
    refine ⟨initCounts ids, updQ_self s.votes q (initCounts ids), ?_⟩
    intro c
    simp [initCounts_lookupD, startVotingWithChoices, cntV_nil]

theorem count_shift_prev (m : Cnt) (voters : List (String × String))
    (v c prev : String) (hv : lookA voters v = some prev)
    (hcnt : ∀ k, lookupD m k = (cntV voters k : Int)) (k : String) :
    lookupD (incK (decK m prev) c) k = (cntV (setA voters v c) k : Int) := by
  have hc := cntV_setA_mem voters v c prev hv k
  rw [lookupD_incK, lookupD_decK, hcnt k]
  by_cases h1 : prev = k <;> by_cases h2 : c = k <;>
    simp [h1, h2] at hc ⊢ <;> omega

theorem count_shift_new (m : Cnt) (voters : List (String × String))
    (v c : String) (hv : lookA voters v = none)
    (hcnt : ∀ k, lookupD m k = (cntV voters k : Int)) (k : String) :
    lookupD (incK m c) k = (cntV (setA voters v c) k : Int) := by
  have hc := cntV_setA_new voters v c hv k
  rw [lookupD_incK, hcnt k, hc]
  by_cases h2 : c = k <;> simp [h2]

theorem inv_submit (v c : String) (s : VM) (h : Inv s) :
    Inv ((submitVote v c s).1) := by
  cases hA : s.votingActive with
  | false =>
    rw [submitVote_inactive v c s hA]
    exact h
  | true =>
    obtain ⟨m, hm, hcnt⟩ := h.2 hA
    cases hv : lookA s.voters v with
    | some prev =>
      rw [submitVote_active_prev v c prev s m hA hv hm]
      constructor
      · intro q' m' hm' k
        replace hm' : (if q' = s.currentQuestion then some (incK (decK m prev) c)
            else s.votes q') = some m' := hm'
        by_cases hq : q' = s.currentQuestion
        · rw [if_pos hq, Option.some.injEq] at hm'
          subst hm'
          rw [count_shift_prev m s.voters v c prev hv hcnt k]
          exact Int.natCast_nonneg _
        · rw [if_neg hq] at hm'
          exact h.1 q' m' hm' k
      · intro _
        exact ⟨incK (decK m prev) c, updQ_self _ _ _,
          count_shift_prev m s.voters v c prev hv hcnt⟩
    | none =>
      rw [submitVote_active_new v c s m hA hv hm]
      constructor
      · intro q' m' hm' k
        replace hm' : (if q' = s.currentQuestion then some (incK m c)
            else s.votes q') = some m' := hm'
        by_cases hq : q' = s.currentQuestion
        · rw [if_pos hq, Option.some.injEq] at hm'
          subst hm'
          rw [count_shift_new m s.voters v c hv hcnt k]
          exact Int.natCast_nonneg _
        · rw [if_neg hq] at hm'
          exact h.1 q' m' hm' k
      · intro _
        exact ⟨incK m c, updQ_self _ _ _, count_shift_new m s.voters v c hv hcnt⟩

theorem inv_endv (s : VM) (h : Inv s) : Inv (endVoting s) := by
  unfold endVoting
  by_cases hA : s.votingActive = true <;> simp [hA]
  · exact ⟨h.1, by intro hh; cases hh⟩
  · exact h

theorem inv_reset (s : VM) : Inv (resetVoting s) := by
  constructor
  · intro q m h c
    simp [resetVoting] at h
  · intro h
    simp [resetVoting] at h

theorem inv_clearq (q : String) (s : VM) (h : Inv s) : Inv (clearQuestionVotes q s) := by
  constructor
  · intro q' m hm c
    simp only [clearQuestionVotes] at hm
    by_cases hq : q' = q ∧ q ≠ ""
    · simp [hq] at hm
    · simp [hq] at hm
      exact h.1 q' m hm c
  · intro hh
    simp [clearQuestionVotes] at hh

theorem inv_applyOp (s : VM) (op : VOp) (h : Inv s) : Inv (applyOp s op) := by
  cases op with
  | start q ids => exact inv_start q ids s h
  | submit v c => exact inv_submit v c s h
  | endv => exact inv_endv s h
  | reset => exact inv_reset s
  | clearq q => exact inv_clearq q s h

theorem inv_foldl (l : List VOp) (s : VM) (h : Inv s) : Inv (l.foldl applyOp s) := by
  induction l generalizing s with
  | nil => exact h
  | cons op rest ih => exact ih (applyOp s op) (inv_applyOp s op h)

/-- Every reachable `VoteManager` state satisfies the invariant. -/
theorem reach_inv (ops : List VOp) : Inv (runOps ops) :=
  inv_foldl ops newVM inv_newVM

theorem runOps_append (ops : List VOp) (l : List VOp) :
    runOps (ops ++ l) = l.foldl applyOp (runOps ops) := by
  simp [runOps, List.foldl_append]

/-! ## Navigation (`backend/main.go` handlers over `backend/parser/story.go`)

`GetChapter` either returns a parsed chapter or an error; the embedding
abstracts the engine as a partial map from node IDs to chapters (`Engine`).
A chapter carries the fields the handlers consult: its ID, its default-next
ID (`""` when absent) and its ordered choice list (choice ID, target ID).
The HTTP handlers mutate the server's `currentNode`/`history`/`voteManager`
fields in place; each handler is embedded as a function returning the
post-state together with the error (if any) that was written to the
response, so that partial mutation before an error return stays visible. -/

structure Chapter where
  id : String
  next : String
  choices : List (String × String)

abbrev Engine := String → Option Chapter

inductive NavErr where
  | notFound (nodeID : String)
  | noNext (nodeID : String)
  | noChoice (choiceID : String)
  | noHistory
deriving DecidableEq

/-- `StoryEngine.GetChapter` (story.go:111-143): chapter or `node not found`
(parse failures also surface as errors; both collapse into `none`). -/
def getChapterE (g : Engine) (k : String) : Except NavErr Chapter :=
  match g k with
  | some ch => .ok ch
  | none => .error (.notFound k)

/-- `StoryEngine.GetNextChapter` (story.go:151-162). -/
def getNextChapter (g : Engine) (cur : String) : Except NavErr Chapter :=
  match getChapterE g cur with
  | .error e => .error e
  | .ok ch =>
    if ch.next = "" then .error (.noNext cur)
    else getChapterE g ch.next

/-- `StoryEngine.GetChapterByChoice` (story.go:165-178): scan the choice
list in order for the first matching choice ID. -/
def getChapterByChoice (g : Engine) (cur choiceID : String) : Except NavErr Chapter :=
  match getChapterE g cur with
  | .error e => .error e
  | .ok ch =>
    match ch.choices.find? (fun p => p.1 == choiceID) with
    | some p => getChapterE g p.2
    | none => .error (.noChoice choiceID)

/-- The navigation-relevant fields of `Server` (main.go:453-462). -/
structure Srv where
  currentNode : String
  history : List String
  vm : VM

/-- `handleAdvance` (main.go:671-724): the current node is appended to the
history BEFORE the next chapter is resolved (main.go:685); an error return
therefore leaves that push in place.  On success the current node becomes
the resolved chapter's ID and `chapter_changed` is broadcast (no state). -/
def handleAdvance (g : Engine) (choiceID : String) (s : Srv) : Srv × Option NavErr :=
  let s1 : Srv := { s with history := s.history ++ [s.currentNode] }
  let r := if choiceID ≠ "" then getChapterByChoice g s.currentNode choiceID
           else getNextChapter g s.currentNode
  match r with
  | .error e => (s1, some e)
  | .ok ch => ({ s1 with currentNode := ch.id }, none)

/-- `handleGoBack` (main.go:795-841): empty history is rejected up front
(main.go:799-803); otherwise the history is popped, then the previous
chapter is fetched (an error return leaves the pop in place), then the
position moves back and the departed question's votes are cleared. -/
def handleGoBack (g : Engine) (s : Srv) : Srv × Option NavErr :=
  match s.history.getLast? with
  | none => (s, some .noHistory)
  | some prev =>
    let curID := s.currentNode
    let s1 : Srv := { s with history := s.history.dropLast }
    match g prev with
    | none => (s1, some (.notFound prev))
    | some _ =>
      ({ s1 with currentNode := prev, vm := clearQuestionVotes curID s1.vm }, none)

/-- A presenter navigation command: advance (with an optional choice key,
`""` meaning the default edge) or go back. -/
inductive NavCmd where
  | adv (choiceID : String)
  | back

def execNav (g : Engine) (cmd : NavCmd) (s : Srv) : Srv × Option NavErr :=
  match cmd with
  | .adv choiceID => handleAdvance g choiceID s
  | .back => handleGoBack g s

/-! ## The auto-close timer race (`votes.go` 113-119, 170-199)

`StartVotingWithChoices` stops the previous `time.Timer` and schedules a new
one whose callback runs `EndVoting`.  `timer.Stop` prevents the callback
only while the timer has not yet fired; a callback that has already started
(and is, e.g., blocked on the mutex) is unaffected, and `EndVoting` checks
only `votingActive`, with no session-generation guard.  The interleaving
model below captures exactly this: sessions are numbered by start order
(`gen`), each start creates timer `gen + 1` and stops the previous timer if
it is still `pending`; a `pending` timer may fire at its deadline
(`CEv.fire`, after which stopping is ineffective); a `running` callback
eventually executes the `EndVoting` body under the mutex (`CEv.runEnd`),
which ends whatever session is active at that moment.  `ended` logs, for
each executed end transition, the generation the timer belongs to paired
with the generation of the session it actually ended. -/

inductive TStatus where
  | pending
  | running
  | stopped
  | done
deriving DecidableEq

structure TimerRec where
  id : Nat
  status : TStatus
deriving DecidableEq

structure CState where
  gen : Nat
  active : Bool
  timers : List TimerRec
  ended : List (Nat × Nat)
deriving DecidableEq

/-- `vm.timer.Stop()`: effective only while the timer has not fired. -/
def stopTimer (ts : List TimerRec) (i : Nat) : List TimerRec :=
  ts.map (fun r => if r.id = i ∧ r.status = .pending then ⟨r.id, .stopped⟩ else r)

/-- `StartVotingWithChoices` (votes.go:113-119): stop the current timer,
begin the next session, schedule its timer via `time.AfterFunc`. -/
def cStart (s : CState) : CState :=
  { gen := s.gen + 1
    active := true
    timers := stopTimer s.timers s.gen ++ [⟨s.gen + 1, .pending⟩]
    ended := s.ended }

/-- The scheduled duration elapses: a still-pending timer's callback starts;
from this point `Stop` has no effect on it. -/
def cFire (i : Nat) (s : CState) : CState :=
  if (⟨i, .pending⟩ : TimerRec) ∈ s.timers then
    { s with timers := s.timers.map (fun r => if r.id = i then ⟨i, .running⟩ else r) }
  else s

/-- The body of `EndVoting` (votes.go:170-199) as executed by a running
timer callback once it acquires the mutex: a no-op when voting is inactive;
otherwise deactivate, stop the current timer, and perform the end
transition (winner computation, `voting_ended` broadcast, callback) for the
currently active session — there is no generation check. -/
def cRunEnd (i : Nat) (s : CState) : CState :=
  if (⟨i, .running⟩ : TimerRec) ∈ s.timers then
    let ts := s.timers.map (fun r => if r.id = i then ⟨i, .done⟩ else r)
    if s.active then
      { s with timers := stopTimer ts s.gen
               active := false
               ended := s.ended ++ [(i, s.gen)] }
    else { s with timers := ts }
  else s

/-- An explicit presenter `EndVoting` call (no timer involved): the same
body, attributed to the current generation. -/
def cEndManual (s : CState) : CState :=
  if s.active then
    { s with timers := stopTimer s.timers s.gen
             active := false
             ended := s.ended ++ [(s.gen, s.gen)] }
  else s

inductive CEv where
  | start
  | fire (i : Nat)
  | runEnd (i : Nat)
  | endManual

def cStep (s : CState) : CEv → CState
  | .start => cStart s
  | .fire i => cFire i s
  | .runEnd i => cRunEnd i s
  | .endManual => cEndManual s

def cRun (evs : List CEv) : CState :=
  evs.foldl cStep { gen := 0, active := false, timers := [], ended := [] }

/-! ## Field-level facts about `SubmitVote` -/

theorem submitVote_err_none (v c : String) (s : VM) : (submitVote v c s).2 = none := by
  cases hA : s.votingActive <;>
    cases hv : lookA s.voters v <;>
    cases hm : s.votes s.currentQuestion <;>
    simp [submitVote, hA, hv, hm]

theorem submitVote_votingActive (v c : String) (s : VM) :
    ((submitVote v c s).1).votingActive = s.votingActive := by
  cases hA : s.votingActive <;>
    cases hv : lookA s.voters v <;>
    cases hm : s.votes s.currentQuestion <;>
    simp [submitVote, hA, hv, hm]

theorem submitVote_currentQuestion (v c : String) (s : VM) :
    ((submitVote v c s).1).currentQuestion = s.currentQuestion := by
  cases hA : s.votingActive <;>
    cases hv : lookA s.voters v <;>
    cases hm : s.votes s.currentQuestion <;>
    simp [submitVote, hA, hv, hm]

theorem submitVote_voters_active (v c : String) (s : VM) (hA : s.votingActive = true) :
    ((submitVote v c s).1).voters = setA s.voters v c := by
  cases hv : lookA s.voters v <;>
    cases hm : s.votes s.currentQuestion <;>
    simp [submitVote, hA, hv, hm]

theorem submitVote_votes_other (v c : String) (s : VM) (q : String)
    (hq : q ≠ s.currentQuestion) :
    ((submitVote v c s).1).votes q = s.votes q := by
  cases hA : s.votingActive <;>
    cases hv : lookA s.voters v <;>
    cases hm : s.votes s.currentQuestion <;>
    simp [submitVote, hA, hv, hm, updQ, hq]

theorem endVoting_votes (s : VM) : (endVoting s).votes = s.votes := by
  unfold endVoting
  by_cases hA : s.votingActive = true <;> simp [hA]

theorem endVoting_inactive (s : VM) : (endVoting s).votingActive = false ∨ (endVoting s) = s := by
  unfold endVoting
  by_cases hA : s.votingActive = true <;> simp [hA]

/-! ## Claim theorems -/

/-- Claim C8 (confirmed).  For every reachable state of the vote tally store
(`NewVoteManager` followed by any sequence of `StartVoting`, `SubmitVote`,
`EndVoting`, `ResetVoting`, `ClearQuestionVotes`), every stored tally count
is nonnegative: decrementing a re-voting voter's previous option never takes
a count below the zero established at initialization. -/
theorem tally_counts_nonneg (ops : List VOp) (q c : String) :
    0 ≤ getCount (runOps ops) q c := by
  have h := reach_inv ops
  unfold getCount
  cases hm : (runOps ops).votes q with
  | none => simp [lookupD, lookA]
  | some m => simpa using h.1 q m hm c

/-- Claim C7 (confirmed).  `SubmitVote` while no voting session is active
returns a `nil` error and leaves the entire `VoteManager` state (tallies,
voter records, question, active flag) untouched. -/
theorem submitVote_idle_noop (v c : String) (s : VM) (h : s.votingActive = false) :
    submitVote v c s = (s, none) := by
  simp [submitVote, h]

theorem submitVote_idle_noop_witness :
    newVM.votingActive = false ∧ submitVote "voter-1" "choice-a" newVM = (newVM, none) :=
  ⟨rfl, submitVote_idle_noop "voter-1" "choice-a" newVM rfl⟩

/-- Claim C9 (confirmed).  `handleGoBack` on an empty navigation history
rejects the command with the no-history error before touching any state:
the position, the history and the vote manager are returned unchanged. -/
theorem goBack_empty_history_noop (g : Engine) (s : Srv) (h : s.history = []) :
    handleGoBack g s = (s, some .noHistory) := by
  simp [handleGoBack, h]

theorem goBack_empty_history_noop_witness :
    (⟨"intro", [], newVM⟩ : Srv).history = [] ∧
    handleGoBack (fun _ => none) ⟨"intro", [], newVM⟩
      = (⟨"intro", [], newVM⟩, some .noHistory) :=
  ⟨rfl, goBack_empty_history_noop (fun _ => none) ⟨"intro", [], newVM⟩ rfl⟩

/-- Claim C1 (code_bug).  `determineWinner` scans the results with a Go
`for ... range` over an unordered map, so for the counts a=3, b=3, c=1
(options registered in order a, b, c) the winner is whichever tied option
the runtime happens to visit first: the visiting order a,b,c yields "a" but
the equally legitimate visiting order b,a,c of the same map yields "b".
The registration order is never consulted, contradicting the claimed
deterministic first-registered tie-break. -/
theorem determineWinner_depends_on_iteration_order :
    determineWinner [("a", 3), ("b", 3), ("c", 1)] = "a" ∧
    determineWinner [("b", 3), ("a", 3), ("c", 1)] = "b" ∧
    List.Perm [("a", (3 : Int)), ("b", 3), ("c", 1)] [("b", 3), ("a", 3), ("c", 1)] ∧
    ("a" : String) ≠ "b" := by
  refine ⟨rfl, rfl, List.Perm.swap _ _ _, ?_⟩
  decide

/-- Claim C4 (code_bug).  The trace start; timer-1 fires; start; timer-1's
callback runs `EndVoting`: the timer created for session 1 executes the end
transition of session 2, because `timer.Stop()` in the second start cannot
cancel the already-fired callback and `EndVoting` checks only
`votingActive`, never the session generation.  The `ended` log records the
pair (owning generation 1, ended generation 2). -/
theorem staleTimer_ends_next_session :
    (cRun [.start, .fire 1, .start, .runEnd 1]).ended = [(1, 2)] ∧ (1 : Nat) ≠ 2 := by
  refine ⟨?_, by decide⟩
  decide

/-- Claim C2 (confirmed).  In any reachable state with an active session, a
voter whose recorded choice is `x` submitting `y ≠ x` moves exactly one unit
of tally from `x` to `y` while the number of distinct voters stays the
same. -/
theorem submitVote_revote_shifts_tally (ops : List VOp) (v x y : String)
    (hA : (runOps ops).votingActive = true)
    (hv : lookA (runOps ops).voters v = some x)
    (hxy : x ≠ y) :
    getCount (submitVote v y (runOps ops)).1 (runOps ops).currentQuestion y
      = getCount (runOps ops) (runOps ops).currentQuestion y + 1 ∧
    getCount (submitVote v y (runOps ops)).1 (runOps ops).currentQuestion x
      = getCount (runOps ops) (runOps ops).currentQuestion x - 1 ∧
    (submitVote v y (runOps ops)).1.voters.length = (runOps ops).voters.length := by
  obtain ⟨m, hm, _⟩ := (reach_inv ops).2 hA
  have hyx : y ≠ x := fun hh => hxy hh.symm
  rw [submitVote_active_prev v y x (runOps ops) m hA hv hm]
  refine ⟨?_, ?_, ?_⟩
  · simp [getCount, updQ, hm, lookupD_incK, lookupD_decK, hxy]
  · simp [getCount, updQ, hm, lookupD_incK, lookupD_decK, hyx]
  · exact length_setA_of_lookA_some (runOps ops).voters v y x hv

theorem submitVote_revote_shifts_tally_witness :
    (runOps [.start "q1" ["a", "b"], .submit "v1" "a"]).votingActive = true ∧
    lookA (runOps [.start "q1" ["a", "b"], .submit "v1" "a"]).voters "v1" = some "a" ∧
    getCount (submitVote "v1" "b" (runOps [.start "q1" ["a", "b"], .submit "v1" "a"])).1
        (runOps [.start "q1" ["a", "b"], .submit "v1" "a"]).currentQuestion "b"
      = getCount (runOps [.start "q1" ["a", "b"], .submit "v1" "a"])
          (runOps [.start "q1" ["a", "b"], .submit "v1" "a"]).currentQuestion "b" + 1 :=
  ⟨by decide, by decide,
    (submitVote_revote_shifts_tally [.start "q1" ["a", "b"], .submit "v1" "a"]
      "v1" "a" "b" (by decide) (by decide) (by decide)).1⟩

/-- `SubmitVote` called `n` times in a row with the same voter and choice. -/
def submitN (v c : String) : Nat → VM → VM
  | 0, s => s
  | n + 1, s => submitN v c n ((submitVote v c s).1)

theorem submit_step_runOps (ops : List VOp) (v c : String) :
    (submitVote v c (runOps ops)).1 = runOps (ops ++ [.submit v c]) := by
  rw [runOps_append]
  rfl

/-- A first vote (the voter's current record is not `x`) raises the tally of
`x` by one. -/
theorem submit_first_adds_one (ops : List VOp) (v x : String)
    (hA : (runOps ops).votingActive = true)
    (hv : lookA (runOps ops).voters v ≠ some x) :
    getCount ((submitVote v x (runOps ops)).1) (runOps ops).currentQuestion x
      = getCount (runOps ops) (runOps ops).currentQuestion x + 1 := by
  obtain ⟨m, hm, _⟩ := (reach_inv ops).2 hA
  cases hv0 : lookA (runOps ops).voters v with
  | none =>
    rw [submitVote_active_new v x (runOps ops) m hA hv0 hm]
    simp [getCount, updQ, hm, lookupD_incK]
  | some prev =>
    have hpx : prev ≠ x := by
      intro hh
      exact hv (hh ▸ hv0)
    rw [submitVote_active_prev v x prev (runOps ops) m hA hv0 hm]
    simp [getCount, updQ, hm, lookupD_incK, lookupD_decK, hpx]

/-- A repeated vote (the voter's current record is already `x`) changes no
tally at all: the decrement of the previous choice and the increment of the
new choice hit the same key. -/
theorem submit_same_fixed (ops : List VOp) (v x : String)
    (hA : (runOps ops).votingActive = true)
    (hv : lookA (runOps ops).voters v = some x) (q c : String) :
    getCount ((submitVote v x (runOps ops)).1) q c = getCount (runOps ops) q c := by
  obtain ⟨m, hm, _⟩ := (reach_inv ops).2 hA
  rw [submitVote_active_prev v x x (runOps ops) m hA hv hm]
  have e : ∀ k, lookupD (incK (decK m x) x) k = lookupD m k := by
    intro k
    rw [lookupD_incK, lookupD_decK]
    ring
  by_cases hq : q = (runOps ops).currentQuestion
  · subst hq
    simp [getCount, updQ, hm, e]
  · simp [getCount, updQ, hq]

theorem submitN_fixed (v x : String) (n : Nat) :
    ∀ ops : List VOp, (runOps ops).votingActive = true →
      lookA (runOps ops).voters v = some x → ∀ q c,
      getCount (submitN v x n (runOps ops)) q c = getCount (runOps ops) q c := by
  induction n with
  | zero =>
    intro ops _ _ q c
    rfl
  | succ k ih =>
    intro ops hA hv q c
    have hstep := submit_step_runOps ops v x
    have hA' : (runOps (ops ++ [.submit v x])).votingActive = true := by
      rw [← hstep, submitVote_votingActive, hA]
    have hv' : lookA (runOps (ops ++ [.submit v x])).voters v = some x := by
      rw [← hstep, submitVote_voters_active v x (runOps ops) hA, lookA_setA_self]
    calc getCount (submitN v x (k + 1) (runOps ops)) q c
        = getCount (submitN v x k (runOps (ops ++ [.submit v x]))) q c := by
          rw [show submitN v x (k + 1) (runOps ops)
              = submitN v x k ((submitVote v x (runOps ops)).1) from rfl, hstep]
      _ = getCount (runOps (ops ++ [.submit v x])) q c := ih _ hA' hv' q c
      _ = getCount (runOps ops) q c := by
          rw [← hstep]
          exact submit_same_fixed ops v x hA hv q c

/-- Claim C3 (confirmed).  In any reachable state with an active session, a
voter whose current record is not `x` submitting `x` a total of `n ≥ 1`
times in a row raises the tally of `x` by exactly one (not `n`), and the
calls after the first change nothing. -/
theorem submitVote_idempotent (ops : List VOp) (v x : String) (n : Nat) (hn : 1 ≤ n)
    (hA : (runOps ops).votingActive = true)
    (hv : lookA (runOps ops).voters v ≠ some x) :
    getCount (submitN v x n (runOps ops)) (runOps ops).currentQuestion x
      = getCount (runOps ops) (runOps ops).currentQuestion x + 1 ∧
    getCount (submitN v x n (runOps ops)) (runOps ops).currentQuestion x
      = getCount (submitN v x 1 (runOps ops)) (runOps ops).currentQuestion x := by
  obtain ⟨k, rfl⟩ : ∃ k, n = k + 1 := ⟨n - 1, by omega⟩
  have hstep := submit_step_runOps ops v x
  have hA' : (runOps (ops ++ [.submit v x])).votingActive = true := by
    rw [← hstep, submitVote_votingActive, hA]
  have hv' : lookA (runOps (ops ++ [.submit v x])).voters v = some x := by
    rw [← hstep, submitVote_voters_active v x (runOps ops) hA, lookA_setA_self]
  have h1 : getCount (submitN v x (k + 1) (runOps ops)) (runOps ops).currentQuestion x
      = getCount (runOps (ops ++ [.submit v x])) (runOps ops).currentQuestion x := by
    rw [show submitN v x (k + 1) (runOps ops)
        = submitN v x k ((submitVote v x (runOps ops)).1) from rfl, hstep]
    exact submitN_fixed v x k _ hA' hv' (runOps ops).currentQuestion x
  have h2 : getCount (runOps (ops ++ [.submit v x])) (runOps ops).currentQuestion x
      = getCount (runOps ops) (runOps ops).currentQuestion x + 1 := by
    rw [← hstep]
    exact submit_first_adds_one ops v x hA hv
  refine ⟨by rw [h1, h2], ?_⟩
  rw [h1, h2, show submitN v x 1 (runOps ops) = (submitVote v x (runOps ops)).1 from rfl,
    submit_first_adds_one ops v x hA hv]

theorem submitVote_idempotent_witness :
    (runOps [.start "q1" ["a", "b"]]).votingActive = true ∧
    lookA (runOps [.start "q1" ["a", "b"]]).voters "v1" ≠ some "a" ∧
    getCount (submitN "v1" "a" 3 (runOps [.start "q1" ["a", "b"]]))
        (runOps [.start "q1" ["a", "b"]]).currentQuestion "a"
      = getCount (runOps [.start "q1" ["a", "b"]])
          (runOps [.start "q1" ["a", "b"]]).currentQuestion "a" + 1 :=
  ⟨by decide, by decide,
    (submitVote_idempotent [.start "q1" ["a", "b"]] "v1" "a" 3 (by decide)
      (by decide) (by decide)).1⟩

/-- Claim C5, counterexample.  After `StartVoting("q1", [a, b])`, submitting
the out-of-set option key "zz" is NOT a no-op: the tally map for "q1" gains
the key "zz" with count 1 and the voter record is set to "zz" (no error is
surfaced, but state does change, contradicting the claimed rejection). -/
theorem submitVote_unknown_option_accepted_cex :
    getCount (submitVote "v1" "zz" (runOps [.start "q1" ["a", "b"]])).1 "q1" "zz" = 1 ∧
    getCount (runOps [.start "q1" ["a", "b"]]) "q1" "zz" = 0 ∧
    lookA (submitVote "v1" "zz" (runOps [.start "q1" ["a", "b"]])).1.voters "v1"
      = some "zz" ∧
    "zz" ∉ ["a", "b"] ∧
    (submitVote "v1" "zz" (runOps [.start "q1" ["a", "b"]])).2 = none := by
  refine ⟨?_, ?_, ?_, by decide, ?_⟩ <;> decide

/-- Claim C5, amended (corrected).  `SubmitVote` performs no membership
check against the initialized option set: in any reachable active state a
fresh voter's vote for ANY option key — in the initialized set or not — is
accepted, incrementing that key's tally and recording the voter, with no
error surfaced. -/
theorem submitVote_no_membership_check (ops : List VOp) (v c : String)
    (hA : (runOps ops).votingActive = true)
    (hv : lookA (runOps ops).voters v = none) :
    getCount (submitVote v c (runOps ops)).1 (runOps ops).currentQuestion c
      = getCount (runOps ops) (runOps ops).currentQuestion c + 1 ∧
    lookA (submitVote v c (runOps ops)).1.voters v = some c ∧
    (submitVote v c (runOps ops)).2 = none := by
  obtain ⟨m, hm, _⟩ := (reach_inv ops).2 hA
  refine ⟨?_, ?_, submitVote_err_none v c (runOps ops)⟩
  · rw [submitVote_active_new v c (runOps ops) m hA hv hm]
    simp [getCount, updQ, hm, lookupD_incK]
  · rw [submitVote_voters_active v c (runOps ops) hA, lookA_setA_self]

theorem submitVote_no_membership_check_witness :
    (runOps [.start "q1" ["a", "b"]]).votingActive = true ∧
    lookA (runOps [.start "q1" ["a", "b"]]).voters "v1" = none ∧
    getCount (submitVote "v1" "zz" (runOps [.start "q1" ["a", "b"]])).1
        (runOps [.start "q1" ["a", "b"]]).currentQuestion "zz"
      = getCount (runOps [.start "q1" ["a", "b"]])
          (runOps [.start "q1" ["a", "b"]]).currentQuestion "zz" + 1 :=
  ⟨by decide, by decide,
    (submitVote_no_membership_check [.start "q1" ["a", "b"]] "v1" "zz"
      (by decide) (by decide)).1⟩

/-- Claim C6, counterexample.  `handleAdvance` appends the current node to
the history BEFORE resolving the move, so when resolution fails (here: the
node "n1" has no default-next edge) the command is rejected but the history
has nonetheless been mutated from [] to ["n1"]. -/
theorem handleAdvance_failure_mutates_history_cex :
    ((handleAdvance (fun k => if k = "n1" then some ⟨"n1", "", []⟩ else none) ""
        ⟨"n1", [], newVM⟩).2).isSome = true ∧
    (handleAdvance (fun k => if k = "n1" then some ⟨"n1", "", []⟩ else none) ""
        ⟨"n1", [], newVM⟩).1.history ≠ (⟨"n1", [], newVM⟩ : Srv).history := by
  refine ⟨?_, ?_⟩ <;> decide

/-- Claim C6, amended (corrected).  A failed navigation command leaves the
current position and the vote manager unchanged, but the history is not
always restored: a failed advance has already appended the departing node,
and a failed go-back (previous node unknown) has already popped; only
go-back on an empty history leaves the history intact as well. -/
theorem nav_failure_keeps_position (g : Engine) (cmd : NavCmd) (s : Srv) (e : NavErr)
    (h : (execNav g cmd s).2 = some e) :
    (execNav g cmd s).1.currentNode = s.currentNode ∧
    (execNav g cmd s).1.vm = s.vm ∧
    ((execNav g cmd s).1.history = s.history ∨
     (execNav g cmd s).1.history = s.history ++ [s.currentNode] ∨
     (execNav g cmd s).1.history = s.history.dropLast) := by
  cases cmd with
  | adv choiceID =>
    replace h : (handleAdvance g choiceID s).2 = some e := h
    unfold execNav
    unfold handleAdvance at h ⊢
    cases hr : (if choiceID ≠ "" then getChapterByChoice g s.currentNode choiceID
        else getNextChapter g s.currentNode) with
    | error e' => simp [hr]
    | ok ch => simp [hr] at h
  | back =>
    replace h : (handleGoBack g s).2 = some e := h
    unfold execNav
    unfold handleGoBack at h ⊢
    cases hl : s.history.getLast? with
    | none => simp [hl]
    | some prev =>
      cases hg : g prev with
      | none => simp [hl, hg]
      | some ch => simp [hl, hg] at h

theorem nav_failure_keeps_position_witness :
    (execNav (fun _ => none) (.adv "") ⟨"n1", [], newVM⟩).2
      = some (NavErr.notFound "n1") ∧
    (execNav (fun _ => none) (.adv "") ⟨"n1", [], newVM⟩).1.currentNode
      = (⟨"n1", [], newVM⟩ : Srv).currentNode :=
  ⟨by decide,
    (nav_failure_keeps_position (fun _ => none) (.adv "") ⟨"n1", [], newVM⟩
      (NavErr.notFound "n1") (by decide)).1⟩

/-- Inner-map emptiness is preserved for any question never named by a
`start` operation: no entry point creates a counts map for a question other
than the one it starts (a submit writes only to the current question, which
is always the most recently started one while voting is active). -/
theorem notStarted_votes_none (l : List VOp) (q : String) :
    ∀ s : VM, q ∉ startQs l → s.votes q = none →
      (s.votingActive = true → s.currentQuestion ≠ q) →
      (l.foldl applyOp s).votes q = none := by
  induction l with
  | nil =>
    intro s _ h1 _
    exact h1
  | cons op rest ih =>
    intro s hq h1 h2
    cases op with
    | start q' ids =>
      replace hq : q ∉ q' :: startQs rest := hq
      simp only [List.mem_cons, not_or] at hq
      apply ih _ hq.2
      · show updQ s.votes q' (initCounts ids) q = none
        rw [updQ_ne _ _ _ _ hq.1]
        exact h1
      · intro _
        exact fun hh => hq.1 hh.symm
    | submit v c =>
      have hq' : q ∉ startQs rest := fun hmem => hq hmem
      apply ih _ hq'
      · cases hA : s.votingActive with
        | false =>
          show ((submitVote v c s).1).votes q = none
          rw [submitVote_inactive v c s hA]
          exact h1
        | true =>
          have hne : q ≠ s.currentQuestion := fun hh => (h2 hA) hh.symm
          show ((submitVote v c s).1).votes q = none
          rw [submitVote_votes_other v c s q hne]
          exact h1
      · intro hAct
        replace hAct : ((submitVote v c s).1).votingActive = true := hAct
        rw [submitVote_votingActive] at hAct
        show ((submitVote v c s).1).currentQuestion ≠ q
        rw [submitVote_currentQuestion]
        exact h2 hAct
    | endv =>
      have hq' : q ∉ startQs rest := fun hmem => hq hmem
      apply ih _ hq'
      · show (endVoting s).votes q = none
        rw [endVoting_votes]
        exact h1
      · intro hAct
        replace hAct : (endVoting s).votingActive = true := hAct
        exfalso
        unfold endVoting at hAct
        by_cases hA : s.votingActive = true <;> simp [hA] at hAct
    | reset =>
      have hq' : q ∉ startQs rest := fun hmem => hq hmem
      apply ih _ hq'
      · rfl
      · intro hAct
        replace hAct : (resetVoting s).votingActive = true := hAct
        simp [resetVoting] at hAct
    | clearq q'' =>
      have hq' : q ∉ startQs rest := fun hmem => hq hmem
      apply ih _ hq'
      · show (clearQuestionVotes q'' s).votes q = none
        by_cases hc : q = q'' ∧ q'' ≠ "" <;> simp [clearQuestionVotes, hc, h1]
      · intro hAct
        replace hAct : (clearQuestionVotes q'' s).votingActive = true := hAct
        simp [clearQuestionVotes] at hAct

/-- Claim C10 (confirmed).  `GetResults` is total: for a question that was
never initialized it returns the empty map rather than an error, and in
general the returned map agrees with the stored counts at every key — the
source builds it as a fresh `make` + `maps.Copy`, so the caller's copy is
independent of the manager's storage. -/
theorem getResults_total_and_copy (ops : List VOp) (q : String)
    (h : q ∉ startQs ops) :
    getResults (runOps ops) q = [] ∧
    ∀ q' c, lookupD (getResults (runOps ops) q') c = getCount (runOps ops) q' c := by
  have h0 : (runOps ops).votes q = none :=
    notStarted_votes_none ops q newVM h rfl (fun hh => absurd hh (by decide))
  constructor
  · simp [getResults, h0]
  · intro q' c
    cases hm : (runOps ops).votes q' with
    | none => simp [getResults, getCount, hm, lookupD, lookA]
    | some m => simp [getResults, getCount, hm]

theorem getResults_total_and_copy_witness :
    "q2" ∉ startQs [.start "q1" ["a", "b"], .submit "v1" "a"] ∧
    getResults (runOps [.start "q1" ["a", "b"], .submit "v1" "a"]) "q2" = [] :=
  ⟨by decide,
    (getResults_total_and_copy [.start "q1" ["a", "b"], .submit "v1" "a"] "q2"
      (by decide)).1⟩

end AdventureVoter
